import Mathlib

/-!
Shallow embedding of the Upload Moderation & Thumbnail Lifecycle subsystem
of the `level-thumbnails-server` repository (src/src/database.rs,
src/src/routes/upload.rs, src/src/routes/thumbnail.rs).

Modelling conventions:
* Rust `i64` database ids are `Int`; the `u64` route path parameter is a
  `Nat` bounded by `2 ^ 64`, and the Rust `id as i64` cast is `i64ofU64`.
* Artifact-store paths are produced by the two templates
  `format!("thumbnails/{}.webp", n)` and `format!("uploads/{}_{}.webp", u, n)`.
  Decimal rendering of integers is injective and contains neither `/` nor `_`,
  so two rendered paths are equal exactly when they come from the same
  template with numerically equal components (a `u64` value `n` renders as the
  integer `n`, an `i64` value `m` as the integer `m`).  Paths are therefore
  embedded as the inductive `FPath` carrying those integers.
* The artifact store is an association list from paths to an abstract content
  token (`Nat`), mirroring `tokio::fs`: `write` creates or truncates and
  succeeds, `rename` and `remove_file` fail exactly when the source is absent.
* Database inserts and updates are modelled as always succeeding; the
  record-store I/O-failure branches of the Rust code only propagate a 500
  after the fact and are not the subject of the claims below.
* The `webp` re-encoding is an external codec collaborator: a decoded image
  carries its dimensions and an opaque content token that the encoder
  passes through.
-/

namespace ThumbServer

/-- Roles, from `database.rs` (`enum Role`). -/
inductive Role
  | user
  | verified
  | moderator
  | admin
deriving DecidableEq, Repr

/-- `struct User` from `database.rs`. -/
structure User where
  id : Int
  account_id : Int
  username : String
  role : Role
deriving DecidableEq, Repr

/-- The `u64 → i64` cast performed by `id as i64` in the route handlers
(the bounds are the literals `2 ^ 63` and `2 ^ 64`, spelt out so that the
definition evaluates without unary power unfolding). -/
def i64ofU64 (n : Nat) : Int :=
  if n < 9223372036854775808 then (n : Int)
  else (n : Int) - 18446744073709551616

/-- Numeric value rendered by a `u64` whose stored `i64` form is `m`
(the inverse of `i64ofU64` on the `i64` range; `2 ^ 64` spelt as a literal). -/
def u64ofI64 (m : Int) : Int :=
  if m < 0 then m + 18446744073709551616 else m

/-- Artifact-store paths, abstracted by template and numeric components
(see the header comment for why this is faithful to the `format!` strings).
`thumb n` is `thumbnails/{n}.webp`;  `pending u n` is `uploads/{u}_{n}.webp`. -/
inductive FPath
  | thumb (n : Int)
  | pending (userId : Int) (n : Int)
deriving DecidableEq, Repr

/-- A row of the `uploads` table.  `get_pending_upload` in the Rust code
projects out a `PendingUpload` subset of the columns; the embedding returns
the whole row, which carries the same fields and more. -/
structure Upload where
  id : Int
  user_id : Int
  level_id : Int
  image_path : FPath
  accepted : Bool
  upload_time : Nat
  accepted_time : Option Nat
  accepted_by : Option Int
  reason : Option String
deriving DecidableEq, Repr

/-- The SQL pending test used throughout `database.rs`:
`accepted = FALSE AND accepted_time IS NULL`. -/
def Upload.isPending (r : Upload) : Bool :=
  !r.accepted && r.accepted_time.isNone

/-- The pending-path file that `add_to_pending` wrote for a pending row:
`uploads/{user_id}_{u64 level id}.webp` (the route formatted the `u64`
route parameter, whose stored `i64` form is `level_id`). -/
def Upload.pendingPath (r : Upload) : FPath :=
  FPath.pending r.user_id (u64ofI64 r.level_id)

/-- Result row of `get_upload_info` (`struct UploadInfo` in `database.rs`). -/
structure UploadInfo where
  account_id : Int
  username : String
deriving DecidableEq, Repr

/-! ## The artifact store (`tokio::fs` on the abstract path space) -/

/-- Contents of the artifact store: an association list from paths to an
abstract content token. -/
abbrev FS := List (FPath × Nat)

def fsLookup (p : FPath) : FS → Option Nat
  | [] => none
  | e :: fs => if e.1 = p then some e.2 else fsLookup p fs

/-- Drop every entry at path `p`. -/
def fsErase (p : FPath) (fs : FS) : FS :=
  fs.filter (fun e => decide (e.1 ≠ p))

/-- `tokio::fs::write`: create or truncate. -/
def fsWrite (p : FPath) (c : Nat) (fs : FS) : FS :=
  (p, c) :: fsErase p fs

/-- `tokio::fs::metadata(..).is_ok()`. -/
def fsExists (p : FPath) (fs : FS) : Bool :=
  (fsLookup p fs).isSome

/-- `tokio::fs::remove_file`: fails (returns `none`) when the file is absent. -/
def fsRemove (p : FPath) (fs : FS) : Option FS :=
  if fsExists p fs then some (fsErase p fs) else none

/-- `tokio::fs::rename`: fails when the source is absent, replaces any
occupant of the destination. -/
def fsRename (src dst : FPath) (fs : FS) : Option FS :=
  match fsLookup src fs with
  | none => none
  | some c => some (fsWrite dst c (fsErase src fs))

theorem fsLookup_fsErase (p q : FPath) (fs : FS) :
    fsLookup p (fsErase q fs) = if p = q then none else fsLookup p fs := by
  induction fs with
  | nil => simp [fsErase, fsLookup]
  | cons e fs ih =>
    by_cases hq : e.1 = q
    · rw [show fsErase q (e :: fs) = fsErase q fs by simp [fsErase, hq], ih]
      by_cases hp : p = q
      · simp [hp]
      · have hep : e.1 ≠ p := by rw [hq]; exact fun h => hp h.symm
        simp [fsLookup, hp, hep]
    · rw [show fsErase q (e :: fs) = e :: fsErase q fs by simp [fsErase, hq]]
      by_cases hep : e.1 = p
      · have hp : p ≠ q := by rw [← hep]; exact hq
        simp [fsLookup, hep, hp]
      · simp [fsLookup, hep, ih]

theorem fsLookup_fsWrite (p q : FPath) (c : Nat) (fs : FS) :
    fsLookup p (fsWrite q c fs) = if p = q then some c else fsLookup p fs := by
  by_cases hp : p = q
  · simp [fsWrite, fsLookup, hp]
  · have : ¬ q = p := fun h => hp h.symm
    simp [fsWrite, fsLookup, hp, this, fsLookup_fsErase]

theorem fsExists_fsWrite (p q : FPath) (c : Nat) (fs : FS) :
    fsExists p (fsWrite q c fs) = (decide (p = q) || fsExists p fs) := by
  by_cases hp : p = q <;> simp [fsExists, fsLookup_fsWrite, hp]

/-! ## Server state and the database operations (`database.rs`) -/

/-- Combined state of the record store and the artifact store. -/
structure St where
  uploads : List Upload
  users : List User
  files : FS
  nextUploadId : Int
  now : Nat
deriving DecidableEq, Repr

def St.init : St :=
  { uploads := [], users := [], files := [], nextUploadId := 1, now := 0 }

namespace Database

/-- `Database::add_upload`: one `INSERT` whose SQL text depends on `accepted`;
with `accepted` it also sets `accepted_time = NOW()` and `accepted_by = $2`
(the submitter's own user id). -/
def add_upload (level_id user_id : Int) (image_path : FPath) (accepted : Bool)
    (s : St) : St :=
  let row : Upload :=
    { id := s.nextUploadId
      user_id := user_id
      level_id := level_id
      image_path := image_path
      accepted := accepted
      upload_time := s.now
      accepted_time := if accepted then some s.now else none
      accepted_by := if accepted then some user_id else none
      reason := none }
  { s with uploads := s.uploads ++ [row], nextUploadId := s.nextUploadId + 1 }

/-- The per-row effect of `accept_upload`'s
`UPDATE uploads SET accepted = $1, accepted_time = NOW(), accepted_by = $2,
reason = $3 WHERE id = $4` — note that `accepted_time` is set even when
`accept` is `false`. -/
def decideRow (id accepted_by : Int) (reason : Option String) (accept : Bool)
    (now : Nat) (r : Upload) : Upload :=
  if r.id = id then
    { r with
      accepted := accept
      accepted_time := some now
      accepted_by := some accepted_by
      reason := reason }
  else r

/-- `Database::accept_upload`: apply `decideRow` to every row. -/
def accept_upload (id accepted_by : Int) (reason : Option String) (accept : Bool)
    (s : St) : St :=
  { s with uploads := s.uploads.map (decideRow id accepted_by reason accept s.now) }

/-- `Database::get_pending_upload`:
`SELECT .. WHERE accepted = FALSE AND accepted_time IS NULL AND id = $1`,
`fetch_one` (an error — here `none` — when no such row exists). -/
def get_pending_upload (id : Int) (s : St) : Option Upload :=
  s.uploads.find? (fun r => r.isPending && r.id == id)

/-- `Database::get_user_by_id`. -/
def get_user_by_id (uid : Int) (s : St) : Option User :=
  s.users.find? (fun w => w.id == uid)

/-- Descending insertion by `upload_time` (`ORDER BY upload_time DESC`). -/
def insertByTime (r : Upload) : List Upload → List Upload
  | [] => [r]
  | v :: vs =>
      if v.upload_time ≤ r.upload_time then r :: v :: vs
      else v :: insertByTime r vs

/-- `ORDER BY upload_time DESC` over a result set. -/
def orderByTimeDesc (l : List Upload) : List Upload :=
  l.foldr insertByTime []

/-- `Database::get_pending_uploads` (unfiltered). -/
def get_pending_uploads (s : St) : List Upload :=
  orderByTimeDesc (s.uploads.filter (fun r => r.isPending))

/-- `Database::get_pending_uploads_for_level`. -/
def get_pending_uploads_for_level (level_id : Int) (s : St) : List Upload :=
  orderByTimeDesc
    (s.uploads.filter (fun r => r.isPending && r.level_id == level_id))

/-- `Database::get_pending_uploads_for_user`. -/
def get_pending_uploads_for_user (user_id : Int) (s : St) : List Upload :=
  orderByTimeDesc
    (s.uploads.filter (fun r => r.isPending && r.user_id == user_id))

/-- The joined rows that `get_upload_info`'s query ranges over: accepted
uploads of the level, inner-joined with their submitter. -/
def acceptedJoined (level_id : Int) (s : St) : List (Upload × User) :=
  (s.uploads.filter (fun r => r.level_id == level_id && r.accepted)).filterMap
    (fun r => (get_user_by_id r.user_id s).map (fun w => (r, w)))

/-- `ORDER BY upload_time DESC LIMIT 1`: pick a row of maximal
`upload_time` (ties broken arbitrarily, as in SQL). -/
def pickLatest : List (Upload × User) → Option (Upload × User)
  | [] => none
  | x :: xs =>
      match pickLatest xs with
      | none => some x
      | some y => if x.1.upload_time < y.1.upload_time then some y else some x

/-- `Database::get_upload_info`: the most recent accepted upload of the
level joined with its submitter, projected to account id and username. -/
def get_upload_info (level_id : Int) (s : St) : Option UploadInfo :=
  (pickLatest (acceptedJoined level_id s)).map
    (fun x => { account_id := x.2.account_id, username := x.2.username })

end Database

/-! ## The HTTP route handlers (`routes/upload.rs`, `routes/thumbnail.rs`)

Authentication (`auth_middleware`) resolves the session to a `User` row; the
handlers below take that authenticated `User` directly.  HTTP status codes
are the plain numbers the Rust code returns. -/

/-- A request body after `image::load_from_memory`: either undecodable, or a
decoded image with its dimensions and an opaque content token standing for
the re-encoded webp bytes. -/
inductive Img
  | invalid
  | valid (width height : Nat) (content : Nat)
deriving DecidableEq, Repr

namespace Routes

/-- `force_save` in `routes/upload.rs`: write the canonical thumbnail path
and insert an already-accepted upload row (`add_upload(.., true)`); the
`cache_controller::purge` call is an external fire-and-forget collaborator. -/
def force_save (id : Nat) (content : Nat) (user : User) (s : St) : St :=
  let image_path := FPath.thumb (id : Int)
  let s1 := { s with files := fsWrite image_path content s.files }
  Database.add_upload (i64ofU64 id) user.id image_path true s1

/-- `add_to_pending` in `routes/upload.rs`: write the pending path
`uploads/{user.id}_{id}.webp` and insert a pending upload row. -/
def add_to_pending (id : Nat) (content : Nat) (user : User) (s : St) : St :=
  let image_path := FPath.pending user.id (id : Int)
  let s1 := { s with files := fsWrite image_path content s.files }
  Database.add_upload (i64ofU64 id) user.id image_path false s1

/-- `is_image_uploaded`: does `thumbnails/{id}.webp` exist? -/
def is_image_uploaded (id : Nat) (s : St) : Bool :=
  fsExists (FPath.thumb (id : Int)) s.files

/-- The `upload` handler (submission gate) of `routes/upload.rs`, after
authentication.  Returns the HTTP status and the successor state. -/
def upload (user : User) (id : Nat) (img : Img) (s : St) : Nat × St :=
  -- early return if they already have a pending thumbnail (roles User/Verified)
  if (user.role = Role.user ∨ user.role = Role.verified) ∧
      fsExists (FPath.pending user.id (id : Int)) s.files = true then
    (409, s)
  else
    match img with
    | Img.invalid => (400, s)
    | Img.valid w h c =>
      if w ≠ 1920 ∨ h ≠ 1080 then (400, s)
      else
        match user.role with
        | Role.admin | Role.moderator => (201, force_save id c user s)
        | Role.verified =>
            if is_image_uploaded id s = false then (200, force_save id c user s)
            else (202, add_to_pending id c user s)
        | Role.user => (202, add_to_pending id c user s)

/-- `enum PendingFilter` of `routes/upload.rs`. -/
inductive PendingFilter
  | all
  | byLevel (level_id : Int)
  | byUser (user_id : Int)
deriving DecidableEq, Repr

/-- The `get_pending_uploads` route helper of `routes/upload.rs`, after
authentication: the Rust guard is
`(user.role != Moderator && user.role != Admin) || (filter == ByUser(user.id))`
and returns 403 when it holds. -/
def get_pending_uploads (user : User) (filter : PendingFilter) (s : St) :
    Except Nat (List Upload) :=
  if (user.role ≠ Role.moderator ∧ user.role ≠ Role.admin) ∨
      filter = PendingFilter.byUser user.id then
    Except.error 403
  else
    Except.ok
      (match filter with
       | PendingFilter.all => Database.get_pending_uploads s
       | PendingFilter.byLevel level_id =>
           Database.get_pending_uploads_for_level level_id s
       | PendingFilter.byUser user_id =>
           Database.get_pending_uploads_for_user user_id s)

/-- `struct PendingUploadAction` of `routes/upload.rs`. -/
structure PendingUploadAction where
  accepted : Bool
  reason : Option String
deriving DecidableEq, Repr

/-- The `pending_action` handler (moderation decision engine) of
`routes/upload.rs`, after authentication.  On accept it renames the pending
artifact to the canonical path before updating the record; on reject it
deletes the pending artifact before updating the record; either artifact
failure aborts with 500 before the record is touched. -/
def pending_action (user : User) (id : Int) (action : PendingUploadAction)
    (s : St) : Nat × St :=
  if user.role ≠ Role.moderator ∧ user.role ≠ Role.admin then (403, s)
  else
    match Database.get_pending_upload id s with
    | none => (404, s)
    | some up =>
      if up.accepted then (409, s)
      else
        let old_image_path := FPath.pending up.user_id up.level_id
        if action.accepted then
          match fsRename old_image_path (FPath.thumb up.level_id) s.files with
          | some fs2 =>
              (200, Database.accept_upload up.id user.id action.reason true
                      { s with files := fs2 })
          | none => (500, s)
        else
          match fsRemove old_image_path s.files with
          | some fs2 =>
              (200, Database.accept_upload up.id user.id action.reason false
                      { s with files := fs2 })
          | none => (500, s)

/-- The status decision of `handle_image` in `routes/thumbnail.rs`: 404 when
the canonical artifact is absent, 404 when `get_upload_info` resolves to no
accepted upload, otherwise the image is served (the byte serving and the
resize codec are external collaborators). -/
def handle_image (id : Nat) (s : St) : Nat :=
  if fsExists (FPath.thumb (id : Int)) s.files = false then 404
  else
    match Database.get_upload_info (i64ofU64 id) s with
    | none => 404
    | some _ => 200

end Routes

/-! ## Reachable states

States reachable from the empty stores by the state-changing operations of
the subsystem: submissions (`upload`), moderation decisions
(`pending_action`), clock ticks, and user-row creation (`find_or_create_user`
or administrative role changes, abstracted as appending an arbitrary user
row — the upload/decision handlers are quantified over arbitrary
authenticated users, which only widens the reachable set). -/
inductive Reachable : St → Prop
  | init : Reachable St.init
  | tick (s : St) (h : Reachable s) : Reachable { s with now := s.now + 1 }
  | add_user (w : User) (s : St) (h : Reachable s) :
      Reachable { s with users := s.users ++ [w] }
  | upload_step (u : User) (id : Nat) (hid : id < 2 ^ 64) (img : Img) (s : St)
      (h : Reachable s) : Reachable (Routes.upload u id img s).2
  | decide_step (u : User) (id : Int) (a : Routes.PendingUploadAction) (s : St)
      (h : Reachable s) : Reachable (Routes.pending_action u id a s).2

/-! ## Arithmetic facts about the `u64`/`i64` casts -/

theorem i64ofU64_range (n : Nat) (h : n < 2 ^ 64) :
    -(2 ^ 63) ≤ i64ofU64 n ∧ i64ofU64 n < 2 ^ 63 := by
  have h63 : ((2 : Int) ^ 63) = 9223372036854775808 := by norm_num
  have hn : (n : Int) < 18446744073709551616 := by
    have h64n : (2 ^ 64 : Nat) = 18446744073709551616 := by norm_num
    rw [h64n] at h
    exact_mod_cast h
  have hn0 : (0 : Int) ≤ (n : Int) := Int.ofNat_nonneg n
  unfold i64ofU64
  rw [h63]
  split <;> rename_i hc <;> constructor <;> omega

theorem u64_roundtrip (n : Nat) (h : n < 2 ^ 64) :
    u64ofI64 (i64ofU64 n) = (n : Int) := by
  have hn : (n : Int) < 18446744073709551616 := by
    have h64n : (2 ^ 64 : Nat) = 18446744073709551616 := by norm_num
    rw [h64n] at h
    exact_mod_cast h
  have hn0 : (0 : Int) ≤ (n : Int) := Int.ofNat_nonneg n
  unfold i64ofU64 u64ofI64
  split <;> rename_i hc <;> split <;> rename_i hc2 <;> omega

/-- Two formatted pending paths agree only on equal `(userId, levelId)` pairs,
given that both stored level ids are in `i64` range. -/
theorem pendingPath_inj (r up : Upload)
    (hr : -(2 ^ 63) ≤ r.level_id ∧ r.level_id < 2 ^ 63)
    (hup : -(2 ^ 63) ≤ up.level_id ∧ up.level_id < 2 ^ 63)
    (h : r.pendingPath = FPath.pending up.user_id up.level_id) :
    r.user_id = up.user_id ∧ r.level_id = up.level_id := by
  have h63 : ((2 : Int) ^ 63) = 9223372036854775808 := by norm_num
  rw [h63] at hr hup
  unfold Upload.pendingPath at h
  rw [FPath.pending.injEq] at h
  obtain ⟨hu, hl⟩ := h
  refine ⟨hu, ?_⟩
  unfold u64ofI64 at hl
  split at hl <;> omega

/-! ## List and store helper lemmas -/

theorem length_le_one_mem {α : Type} {l : List α} (h : l.length ≤ 1) {a b : α}
    (ha : a ∈ l) (hb : b ∈ l) : a = b := by
  match l with
  | [] => cases ha
  | [x] =>
    simp only [List.mem_singleton] at ha hb
    rw [ha, hb]
  | x :: y :: t => simp at h

/-- Mapping a function that fixes every element still satisfying `p` cannot
grow a `p`-filtered list. -/
theorem filter_map_length_le {α : Type} (f : α → α) (p : α → Bool)
    (hf : ∀ x, p (f x) = true → f x = x) (l : List α) :
    ((l.map f).filter p).length ≤ (l.filter p).length := by
  induction l with
  | nil => simp
  | cons x t ih =>
    simp only [List.map_cons, List.filter_cons]
    by_cases hx : p (f x) = true
    · have hfx := hf x hx
      rw [hfx] at hx ⊢
      simp only [hx, if_true, List.length_cons]
      omega
    · rw [if_neg hx]
      by_cases hx2 : p x = true
      · simp only [hx2, if_true, List.length_cons]
        omega
      · rw [if_neg hx2]
        exact ih

theorem fsErase_keys_sublist (p : FPath) (fs : FS) :
    ((fsErase p fs).map Prod.fst).Sublist (fs.map Prod.fst) :=
  (List.filter_sublist fs).map Prod.fst

theorem nodup_fsErase (p : FPath) (fs : FS) (h : (fs.map Prod.fst).Nodup) :
    ((fsErase p fs).map Prod.fst).Nodup :=
  List.Nodup.sublist (fsErase_keys_sublist p fs) h

theorem not_mem_fsErase_keys (p : FPath) (fs : FS) :
    p ∉ (fsErase p fs).map Prod.fst := by
  intro hmem
  rcases List.mem_map.mp hmem with ⟨e, he, hep⟩
  have h2 := (List.mem_filter.mp he).2
  simp only [decide_eq_true_eq] at h2
  exact h2 hep

theorem nodup_fsWrite (p : FPath) (c : Nat) (fs : FS)
    (h : (fs.map Prod.fst).Nodup) :
    ((fsWrite p c fs).map Prod.fst).Nodup := by
  unfold fsWrite
  simp only [List.map_cons]
  exact List.nodup_cons.mpr ⟨not_mem_fsErase_keys p fs, nodup_fsErase p fs h⟩

/-! ## Characterizations of the operations -/

theorem isPending_iff (r : Upload) :
    r.isPending = true ↔ (r.accepted = false ∧ r.accepted_time = none) := by
  unfold Upload.isPending
  cases hacc : r.accepted <;> cases ht : r.accepted_time <;> simp

/-- The upload row inserted by `force_save` / `add_to_pending` through
`add_upload`. -/
def freshRow (level_id user_id : Int) (image_path : FPath) (accepted : Bool)
    (s : St) : Upload :=
  { id := s.nextUploadId
    user_id := user_id
    level_id := level_id
    image_path := image_path
    accepted := accepted
    upload_time := s.now
    accepted_time := if accepted then some s.now else none
    accepted_by := if accepted then some user_id else none
    reason := none }

theorem force_save_def (id : Nat) (c : Nat) (u : User) (s : St) :
    Routes.force_save id c u s =
      { s with
        uploads := s.uploads ++
          [freshRow (i64ofU64 id) u.id (FPath.thumb (id : Int)) true s]
        files := fsWrite (FPath.thumb (id : Int)) c s.files
        nextUploadId := s.nextUploadId + 1 } := rfl

theorem add_to_pending_def (id : Nat) (c : Nat) (u : User) (s : St) :
    Routes.add_to_pending id c u s =
      { s with
        uploads := s.uploads ++
          [freshRow (i64ofU64 id) u.id (FPath.pending u.id (id : Int)) false s]
        files := fsWrite (FPath.pending u.id (id : Int)) c s.files
        nextUploadId := s.nextUploadId + 1 } := rfl

theorem get_pending_upload_spec {id : Int} {s : St} {up : Upload}
    (h : Database.get_pending_upload id s = some up) :
    up ∈ s.uploads ∧ up.isPending = true ∧ up.id = id := by
  unfold Database.get_pending_upload at h
  have hmem := List.mem_of_find?_eq_some h
  have hp := List.find?_some h
  simp only [Bool.and_eq_true, beq_iff_eq] at hp
  exact ⟨hmem, hp.1, hp.2⟩

theorem get_pending_upload_none {id : Int} {s : St}
    (h : ∀ r ∈ s.uploads, r.id = id → r.isPending = false) :
    Database.get_pending_upload id s = none := by
  unfold Database.get_pending_upload
  rw [List.find?_eq_none]
  intro r hr
  simp only [Bool.and_eq_true, beq_iff_eq, not_and]
  intro hp hid
  rw [h r hr hid] at hp
  cases hp

theorem decideRow_of_ne {id accepted_by : Int} {reason : Option String}
    {accept : Bool} {now : Nat} {r : Upload} (h : r.id ≠ id) :
    Database.decideRow id accepted_by reason accept now r = r := by
  unfold Database.decideRow
  rw [if_neg h]

theorem decideRow_not_pending {id accepted_by : Int} {reason : Option String}
    {accept : Bool} {now : Nat} {r : Upload} (h : r.id = id) :
    (Database.decideRow id accepted_by reason accept now r).isPending = false := by
  unfold Database.decideRow
  rw [if_pos h]
  simp [Upload.isPending]

theorem decideRow_pending_eq {id accepted_by : Int} {reason : Option String}
    {accept : Bool} {now : Nat} {r : Upload}
    (h : (Database.decideRow id accepted_by reason accept now r).isPending = true) :
    Database.decideRow id accepted_by reason accept now r = r ∧ r.id ≠ id := by
  by_cases hid : r.id = id
  · rw [decideRow_not_pending hid] at h
    cases h
  · exact ⟨decideRow_of_ne hid, hid⟩

/-- Branch characterization: role failure. -/
theorem pending_action_forbidden {u : User} {id : Int}
    {a : Routes.PendingUploadAction} {s : St}
    (h : u.role ≠ Role.moderator ∧ u.role ≠ Role.admin) :
    Routes.pending_action u id a s = (403, s) := by
  unfold Routes.pending_action
  rw [if_pos h]

/-- Branch characterization: no pending row. -/
theorem pending_action_not_found {u : User} {id : Int}
    {a : Routes.PendingUploadAction} {s : St}
    (hrole : ¬(u.role ≠ Role.moderator ∧ u.role ≠ Role.admin))
    (hfind : Database.get_pending_upload id s = none) :
    Routes.pending_action u id a s = (404, s) := by
  unfold Routes.pending_action
  rw [if_neg hrole, hfind]

/-- Branch characterization: accept with a present pending artifact. -/
theorem pending_action_accept_success {u : User} {id : Int}
    {a : Routes.PendingUploadAction} {s : St} {up : Upload} {c : Nat}
    (hrole : ¬(u.role ≠ Role.moderator ∧ u.role ≠ Role.admin))
    (hfind : Database.get_pending_upload id s = some up)
    (ha : a.accepted = true)
    (hc : fsLookup (FPath.pending up.user_id up.level_id) s.files = some c) :
    Routes.pending_action u id a s =
      (200, Database.accept_upload up.id u.id a.reason true
        { s with
          files := fsWrite (FPath.thumb up.level_id) c
            (fsErase (FPath.pending up.user_id up.level_id) s.files) }) := by
  have hacc : up.accepted = false :=
    ((isPending_iff up).mp (get_pending_upload_spec hfind).2.1).1
  unfold Routes.pending_action
  rw [if_neg hrole, hfind]
  simp only [hacc, Bool.false_eq_true, if_false, ha, if_true]
  unfold fsRename
  rw [hc]

/-- Branch characterization: accept with the pending artifact missing. -/
theorem pending_action_accept_fail {u : User} {id : Int}
    {a : Routes.PendingUploadAction} {s : St} {up : Upload}
    (hrole : ¬(u.role ≠ Role.moderator ∧ u.role ≠ Role.admin))
    (hfind : Database.get_pending_upload id s = some up)
    (ha : a.accepted = true)
    (hc : fsLookup (FPath.pending up.user_id up.level_id) s.files = none) :
    Routes.pending_action u id a s = (500, s) := by
  have hacc : up.accepted = false :=
    ((isPending_iff up).mp (get_pending_upload_spec hfind).2.1).1
  unfold Routes.pending_action
  rw [if_neg hrole, hfind]
  simp only [hacc, Bool.false_eq_true, if_false, ha, if_true]
  unfold fsRename
  rw [hc]

/-- Branch characterization: reject with a present pending artifact. -/
theorem pending_action_reject_success {u : User} {id : Int}
    {a : Routes.PendingUploadAction} {s : St} {up : Upload}
    (hrole : ¬(u.role ≠ Role.moderator ∧ u.role ≠ Role.admin))
    (hfind : Database.get_pending_upload id s = some up)
    (ha : a.accepted = false)
    (hc : fsExists (FPath.pending up.user_id up.level_id) s.files = true) :
    Routes.pending_action u id a s =
      (200, Database.accept_upload up.id u.id a.reason false
        { s with
          files := fsErase (FPath.pending up.user_id up.level_id) s.files }) := by
  have hacc : up.accepted = false :=
    ((isPending_iff up).mp (get_pending_upload_spec hfind).2.1).1
  unfold Routes.pending_action
  rw [if_neg hrole, hfind]
  simp only [hacc, Bool.false_eq_true, if_false, ha]
  unfold fsRemove
  rw [hc]
  simp

/-- Branch characterization: reject with the pending artifact missing. -/
theorem pending_action_reject_fail {u : User} {id : Int}
    {a : Routes.PendingUploadAction} {s : St} {up : Upload}
    (hrole : ¬(u.role ≠ Role.moderator ∧ u.role ≠ Role.admin))
    (hfind : Database.get_pending_upload id s = some up)
    (ha : a.accepted = false)
    (hc : fsExists (FPath.pending up.user_id up.level_id) s.files = false) :
    Routes.pending_action u id a s = (500, s) := by
  have hacc : up.accepted = false :=
    ((isPending_iff up).mp (get_pending_upload_spec hfind).2.1).1
  unfold Routes.pending_action
  rw [if_neg hrole, hfind]
  simp only [hacc, Bool.false_eq_true, if_false, ha]
  unfold fsRemove
  rw [hc]
  simp

/-- Branch characterization of `upload`: the early duplicate-pending check. -/
theorem upload_conflict {u : User} {id : Nat} {img : Img} {s : St}
    (hrole : u.role = Role.user ∨ u.role = Role.verified)
    (hex : fsExists (FPath.pending u.id (id : Int)) s.files = true) :
    Routes.upload u id img s = (409, s) := by
  unfold Routes.upload
  rw [if_pos ⟨hrole, hex⟩]

theorem upload_invalid {u : User} {id : Nat} {s : St}
    (hna : ¬((u.role = Role.user ∨ u.role = Role.verified) ∧
        fsExists (FPath.pending u.id (id : Int)) s.files = true)) :
    Routes.upload u id Img.invalid s = (400, s) := by
  unfold Routes.upload
  rw [if_neg hna]

theorem upload_bad_dims {u : User} {id : Nat} {w h c : Nat} {s : St}
    (hna : ¬((u.role = Role.user ∨ u.role = Role.verified) ∧
        fsExists (FPath.pending u.id (id : Int)) s.files = true))
    (hdim : w ≠ 1920 ∨ h ≠ 1080) :
    Routes.upload u id (Img.valid w h c) s = (400, s) := by
  unfold Routes.upload
  rw [if_neg hna]
  simp only [if_pos hdim]

theorem upload_privileged {u : User} {id : Nat} {c : Nat} {s : St}
    (hrole : u.role = Role.admin ∨ u.role = Role.moderator) :
    Routes.upload u id (Img.valid 1920 1080 c) s =
      (201, Routes.force_save id c u s) := by
  have hna : ¬((u.role = Role.user ∨ u.role = Role.verified) ∧
      fsExists (FPath.pending u.id (id : Int)) s.files = true) := by
    rintro ⟨hr | hr, -⟩ <;> rcases hrole with h | h <;> rw [h] at hr <;> cases hr
  unfold Routes.upload
  rw [if_neg hna]
  have hdim : ¬((1920 : Nat) ≠ 1920 ∨ (1080 : Nat) ≠ 1080) := by simp
  simp only [if_neg hdim]
  rcases hrole with h | h <;> rw [h]

theorem upload_verified_publish {u : User} {id : Nat} {c : Nat} {s : St}
    (hrole : u.role = Role.verified)
    (hnofile : fsExists (FPath.pending u.id (id : Int)) s.files = false)
    (hthumb : Routes.is_image_uploaded id s = false) :
    Routes.upload u id (Img.valid 1920 1080 c) s =
      (200, Routes.force_save id c u s) := by
  have hna : ¬((u.role = Role.user ∨ u.role = Role.verified) ∧
      fsExists (FPath.pending u.id (id : Int)) s.files = true) := by
    rintro ⟨-, hex⟩
    rw [hnofile] at hex
    cases hex
  unfold Routes.upload
  rw [if_neg hna]
  have hdim : ¬((1920 : Nat) ≠ 1920 ∨ (1080 : Nat) ≠ 1080) := by simp
  simp only [if_neg hdim]
  rw [hrole]
  simp only [hthumb, if_pos]

theorem upload_verified_pending {u : User} {id : Nat} {c : Nat} {s : St}
    (hrole : u.role = Role.verified)
    (hnofile : fsExists (FPath.pending u.id (id : Int)) s.files = false)
    (hthumb : Routes.is_image_uploaded id s = true) :
    Routes.upload u id (Img.valid 1920 1080 c) s =
      (202, Routes.add_to_pending id c u s) := by
  have hna : ¬((u.role = Role.user ∨ u.role = Role.verified) ∧
      fsExists (FPath.pending u.id (id : Int)) s.files = true) := by
    rintro ⟨-, hex⟩
    rw [hnofile] at hex
    cases hex
  unfold Routes.upload
  rw [if_neg hna]
  have hdim : ¬((1920 : Nat) ≠ 1920 ∨ (1080 : Nat) ≠ 1080) := by simp
  simp only [if_neg hdim]
  rw [hrole]
  simp [hthumb]

theorem upload_user_pending {u : User} {id : Nat} {c : Nat} {s : St}
    (hrole : u.role = Role.user)
    (hnofile : fsExists (FPath.pending u.id (id : Int)) s.files = false) :
    Routes.upload u id (Img.valid 1920 1080 c) s =
      (202, Routes.add_to_pending id c u s) := by
  have hna : ¬((u.role = Role.user ∨ u.role = Role.verified) ∧
      fsExists (FPath.pending u.id (id : Int)) s.files = true) := by
    rintro ⟨-, hex⟩
    rw [hnofile] at hex
    cases hex
  unfold Routes.upload
  rw [if_neg hna]
  have hdim : ¬((1920 : Nat) ≠ 1920 ∨ (1080 : Nat) ≠ 1080) := by simp
  simp only [if_neg hdim]
  rw [hrole]

/-! ## The inductive invariant over reachable states -/

/-- Pending rows for a `(userId, levelId)` pair. -/
def pendPred (uid lid : Int) (r : Upload) : Bool :=
  r.isPending && r.user_id == uid && r.level_id == lid

def pendingFor (uid lid : Int) (s : St) : List Upload :=
  s.uploads.filter (pendPred uid lid)

theorem pendPred_iff (uid lid : Int) (r : Upload) :
    pendPred uid lid r = true ↔
      (r.isPending = true ∧ r.user_id = uid ∧ r.level_id = lid) := by
  unfold pendPred
  simp [Bool.and_eq_true, and_assoc]

/-- The invariant carried through every reachable state:
accepted rows have their acceptance time set; stored level ids are in `i64`
range; every pending row's formatted pending artifact exists; at most one
pending row per `(userId, levelId)` pair; and the artifact store holds at
most one entry per path. -/
def Inv (s : St) : Prop :=
  (∀ r ∈ s.uploads, r.accepted = true → r.accepted_time ≠ none) ∧
  (∀ r ∈ s.uploads, -(2 ^ 63) ≤ r.level_id ∧ r.level_id < 2 ^ 63) ∧
  (∀ r ∈ s.uploads, r.isPending = true → fsExists r.pendingPath s.files = true) ∧
  (∀ uid lid : Int, (pendingFor uid lid s).length ≤ 1) ∧
  (s.files.map Prod.fst).Nodup

theorem Inv_init : Inv St.init := by
  unfold Inv St.init pendingFor
  simp

theorem force_save_uploads (id : Nat) (c : Nat) (u : User) (s : St) :
    (Routes.force_save id c u s).uploads =
      s.uploads ++ [freshRow (i64ofU64 id) u.id (FPath.thumb (id : Int)) true s] :=
  rfl

theorem force_save_files (id : Nat) (c : Nat) (u : User) (s : St) :
    (Routes.force_save id c u s).files =
      fsWrite (FPath.thumb (id : Int)) c s.files :=
  rfl

theorem add_to_pending_uploads (id : Nat) (c : Nat) (u : User) (s : St) :
    (Routes.add_to_pending id c u s).uploads =
      s.uploads ++
        [freshRow (i64ofU64 id) u.id (FPath.pending u.id (id : Int)) false s] :=
  rfl

theorem add_to_pending_files (id : Nat) (c : Nat) (u : User) (s : St) :
    (Routes.add_to_pending id c u s).files =
      fsWrite (FPath.pending u.id (id : Int)) c s.files :=
  rfl

theorem accept_upload_uploads (id accepted_by : Int) (reason : Option String)
    (accept : Bool) (s : St) :
    (Database.accept_upload id accepted_by reason accept s).uploads =
      s.uploads.map (Database.decideRow id accepted_by reason accept s.now) :=
  rfl

theorem accept_upload_files (id accepted_by : Int) (reason : Option String)
    (accept : Bool) (s : St) :
    (Database.accept_upload id accepted_by reason accept s).files = s.files :=
  rfl

theorem Inv_force_save {u : User} {id : Nat} (c : Nat) (hid : id < 2 ^ 64)
    {s : St} (hinv : Inv s) : Inv (Routes.force_save id c u s) := by
  obtain ⟨h1, h2, h3, h4, h5⟩ := hinv
  refine ⟨?_, ?_, ?_, ?_, ?_⟩
  · intro r hr
    rw [force_save_uploads] at hr
    rcases List.mem_append.mp hr with hr | hr
    · exact h1 r hr
    · rw [List.mem_singleton] at hr
      subst hr
      simp [freshRow]
  · intro r hr
    rw [force_save_uploads] at hr
    rcases List.mem_append.mp hr with hr | hr
    · exact h2 r hr
    · rw [List.mem_singleton] at hr
      subst hr
      exact i64ofU64_range id hid
  · intro r hr hp
    rw [force_save_uploads] at hr
    rw [force_save_files, fsExists_fsWrite]
    rcases List.mem_append.mp hr with hr | hr
    · rw [h3 r hr hp]
      simp
    · rw [List.mem_singleton] at hr
      subst hr
      simp [freshRow, Upload.isPending] at hp
  · intro uid lid
    simp only [pendingFor, force_save_uploads, List.filter_append]
    have hrow : List.filter (pendPred uid lid)
        [freshRow (i64ofU64 id) u.id (FPath.thumb (id : Int)) true s] = [] := by
      simp [pendPred, freshRow, Upload.isPending]
    rw [hrow, List.append_nil]
    exact h4 uid lid
  · rw [force_save_files]
    exact nodup_fsWrite _ c _ h5

theorem Inv_add_to_pending {u : User} {id : Nat} (c : Nat) (hid : id < 2 ^ 64)
    {s : St}
    (hnofile : fsExists (FPath.pending u.id (id : Int)) s.files = false)
    (hinv : Inv s) : Inv (Routes.add_to_pending id c u s) := by
  obtain ⟨h1, h2, h3, h4, h5⟩ := hinv
  have hfresh_path :
      (freshRow (i64ofU64 id) u.id (FPath.pending u.id (id : Int)) false s).pendingPath
        = FPath.pending u.id (id : Int) := by
    unfold Upload.pendingPath freshRow
    simp only
    rw [u64_roundtrip id hid]
  refine ⟨?_, ?_, ?_, ?_, ?_⟩
  · intro r hr
    rw [add_to_pending_uploads] at hr
    rcases List.mem_append.mp hr with hr | hr
    · exact h1 r hr
    · rw [List.mem_singleton] at hr
      subst hr
      intro hacc
      simp [freshRow] at hacc
  · intro r hr
    rw [add_to_pending_uploads] at hr
    rcases List.mem_append.mp hr with hr | hr
    · exact h2 r hr
    · rw [List.mem_singleton] at hr
      subst hr
      exact i64ofU64_range id hid
  · intro r hr hp
    rw [add_to_pending_uploads] at hr
    rw [add_to_pending_files, fsExists_fsWrite]
    rcases List.mem_append.mp hr with hr | hr
    · rw [h3 r hr hp]
      simp
    · rw [List.mem_singleton] at hr
      subst hr
      rw [hfresh_path]
      simp
  · intro uid lid
    simp only [pendingFor, add_to_pending_uploads, List.filter_append]
    by_cases hmatch : pendPred uid lid
        (freshRow (i64ofU64 id) u.id (FPath.pending u.id (id : Int)) false s) = true
    · have huid : u.id = uid := ((pendPred_iff uid lid _).mp hmatch).2.1
      have hlid : i64ofU64 id = lid := ((pendPred_iff uid lid _).mp hmatch).2.2
      have hempty : s.uploads.filter (pendPred uid lid) = [] := by
        rw [List.filter_eq_nil_iff]
        intro r hr hpred
        obtain ⟨hp, hu, hl⟩ := (pendPred_iff uid lid r).mp hpred
        have hex := h3 r hr hp
        have hpath : r.pendingPath = FPath.pending u.id (id : Int) := by
          unfold Upload.pendingPath
          rw [hu, hl, ← huid, ← hlid, u64_roundtrip id hid]
        rw [hpath] at hex
        rw [hex] at hnofile
        exact Bool.noConfusion hnofile
      rw [hempty, List.nil_append, List.filter_cons, if_pos hmatch]
      simp
    · have hm' : pendPred uid lid
          (freshRow (i64ofU64 id) u.id (FPath.pending u.id (id : Int)) false s)
            = false :=
        Bool.eq_false_iff.mpr hmatch
      rw [List.filter_cons, if_neg (by rw [hm']; exact Bool.noConfusion)]
      simp only [List.filter_nil, List.append_nil]
      exact h4 uid lid
  · rw [add_to_pending_files]
    exact nodup_fsWrite _ c _ h5

theorem decideRow_level_id (id accepted_by : Int) (reason : Option String)
    (accept : Bool) (now : Nat) (r : Upload) :
    (Database.decideRow id accepted_by reason accept now r).level_id =
      r.level_id := by
  unfold Database.decideRow
  split <;> rfl

/-- In an invariant state, a pending row other than `up` cannot own `up`'s
pending artifact path. -/
theorem pendingPath_ne_of_inv {s : St} (hinv : Inv s) {r up : Upload}
    (hr : r ∈ s.uploads) (hrp : r.isPending = true)
    (hup : up ∈ s.uploads) (hupp : up.isPending = true)
    (hne : r.id ≠ up.id) :
    r.pendingPath ≠ FPath.pending up.user_id up.level_id := by
  obtain ⟨-, h2, -, h4, -⟩ := hinv
  intro heq
  obtain ⟨huid, hlid⟩ := pendingPath_inj r up (h2 r hr) (h2 up hup) heq
  have hrmem : r ∈ pendingFor up.user_id up.level_id s :=
    List.mem_filter.mpr ⟨hr, (pendPred_iff _ _ r).mpr ⟨hrp, huid, hlid⟩⟩
  have hupmem : up ∈ pendingFor up.user_id up.level_id s :=
    List.mem_filter.mpr ⟨hup, (pendPred_iff _ _ up).mpr ⟨hupp, rfl, rfl⟩⟩
  exact hne (congrArg Upload.id
    (length_le_one_mem (h4 up.user_id up.level_id) hrmem hupmem))

/-- Invariant preservation for the decision record-update composed with any
artifact-store change that keeps every path other than `up`'s pending path. -/
theorem Inv_decide_core {s : St} {up : Upload} (hinv : Inv s)
    (hup : up ∈ s.uploads) (hpend : up.isPending = true)
    (accept : Bool) (decider : Int) (reason : Option String) (fs2 : FS)
    (hkeep : ∀ p : FPath, p ≠ FPath.pending up.user_id up.level_id →
        fsExists p s.files = true → fsExists p fs2 = true)
    (hnodup : (fs2.map Prod.fst).Nodup) :
    Inv (Database.accept_upload up.id decider reason accept
          { s with files := fs2 }) := by
  obtain ⟨h1, h2, h3, h4, h5⟩ := hinv
  refine ⟨?_, ?_, ?_, ?_, ?_⟩
  · intro r' hr'
    rw [accept_upload_uploads] at hr'
    rcases List.mem_map.mp hr' with ⟨r, hr, hmap⟩
    subst hmap
    by_cases hid : r.id = up.id
    · unfold Database.decideRow
      rw [if_pos hid]
      intro _
      simp
    · rw [decideRow_of_ne hid]
      exact h1 r hr
  · intro r' hr'
    rw [accept_upload_uploads] at hr'
    rcases List.mem_map.mp hr' with ⟨r, hr, hmap⟩
    subst hmap
    rw [decideRow_level_id]
    exact h2 r hr
  · intro r' hr' hp'
    rw [accept_upload_uploads] at hr'
    rcases List.mem_map.mp hr' with ⟨r, hr, hmap⟩
    subst hmap
    obtain ⟨heq, hneid⟩ := decideRow_pending_eq hp'
    rw [heq] at hp' ⊢
    have hnep := pendingPath_ne_of_inv ⟨h1, h2, h3, h4, h5⟩ hr hp' hup hpend hneid
    exact hkeep _ hnep (h3 r hr hp')
  · intro uid lid
    have hf : ∀ x, pendPred uid lid
        (Database.decideRow up.id decider reason accept s.now x) = true →
        Database.decideRow up.id decider reason accept s.now x = x := by
      intro x hx
      exact (decideRow_pending_eq ((pendPred_iff _ _ _).mp hx).1).1
    exact le_trans
      (filter_map_length_le
        (Database.decideRow up.id decider reason accept s.now)
        (pendPred uid lid) hf s.uploads)
      (h4 uid lid)
  · exact hnodup

theorem Inv_pending_action (u : User) (id : Int)
    (a : Routes.PendingUploadAction) {s : St} (hinv : Inv s) :
    Inv (Routes.pending_action u id a s).2 := by
  by_cases hrole : u.role ≠ Role.moderator ∧ u.role ≠ Role.admin
  · rw [pending_action_forbidden hrole]
    exact hinv
  · cases hfind : Database.get_pending_upload id s with
    | none =>
      rw [pending_action_not_found hrole hfind]
      exact hinv
    | some up =>
      obtain ⟨hmem, hpend, -⟩ := get_pending_upload_spec hfind
      by_cases ha : a.accepted = true
      · cases hc : fsLookup (FPath.pending up.user_id up.level_id) s.files with
        | none =>
          rw [pending_action_accept_fail hrole hfind ha hc]
          exact hinv
        | some c =>
          rw [pending_action_accept_success hrole hfind ha hc]
          refine Inv_decide_core hinv hmem hpend true u.id a.reason _ ?_ ?_
          · intro p hne hex
            unfold fsExists at hex ⊢
            rw [fsLookup_fsWrite]
            by_cases hpt : p = FPath.thumb up.level_id
            · rw [if_pos hpt]
              rfl
            · rw [if_neg hpt, fsLookup_fsErase, if_neg hne]
              exact hex
          · exact nodup_fsWrite _ _ _
              (nodup_fsErase _ _ hinv.2.2.2.2)
      · have ha' : a.accepted = false := Bool.eq_false_iff.mpr ha
        cases hc : fsExists (FPath.pending up.user_id up.level_id) s.files with
        | false =>
          rw [pending_action_reject_fail hrole hfind ha' hc]
          exact hinv
        | true =>
          rw [pending_action_reject_success hrole hfind ha' hc]
          refine Inv_decide_core hinv hmem hpend false u.id a.reason _ ?_ ?_
          · intro p hne hex
            unfold fsExists at hex ⊢
            rw [fsLookup_fsErase, if_neg hne]
            exact hex
          · exact nodup_fsErase _ _ hinv.2.2.2.2

theorem Inv_upload (u : User) (id : Nat) (hid : id < 2 ^ 64) (img : Img)
    {s : St} (hinv : Inv s) : Inv (Routes.upload u id img s).2 := by
  by_cases hcond : (u.role = Role.user ∨ u.role = Role.verified) ∧
      fsExists (FPath.pending u.id (id : Int)) s.files = true
  · rw [upload_conflict hcond.1 hcond.2]
    exact hinv
  · unfold Routes.upload
    rw [if_neg hcond]
    cases img with
    | invalid => exact hinv
    | valid w h c =>
      by_cases hdim : w ≠ 1920 ∨ h ≠ 1080
      · simp only [if_pos hdim]
        exact hinv
      · simp only [if_neg hdim]
        cases hrole : u.role with
        | admin => exact Inv_force_save c hid hinv
        | moderator => exact Inv_force_save c hid hinv
        | verified =>
          have hnofile : fsExists (FPath.pending u.id (id : Int)) s.files
              = false := by
            apply Bool.eq_false_iff.mpr
            intro hex
            exact hcond ⟨Or.inr hrole, hex⟩
          by_cases hth : Routes.is_image_uploaded id s = false
          · simp only [if_pos hth]
            exact Inv_force_save c hid hinv
          · simp only [if_neg hth]
            exact Inv_add_to_pending c hid hnofile hinv
        | user =>
          have hnofile : fsExists (FPath.pending u.id (id : Int)) s.files
              = false := by
            apply Bool.eq_false_iff.mpr
            intro hex
            exact hcond ⟨Or.inl hrole, hex⟩
          exact Inv_add_to_pending c hid hnofile hinv

/-- Every reachable state satisfies the invariant. -/
theorem reachable_inv {s : St} (h : Reachable s) : Inv s := by
  induction h with
  | init => exact Inv_init
  | tick s h ih =>
    obtain ⟨h1, h2, h3, h4, h5⟩ := ih
    exact ⟨h1, h2, h3, h4, h5⟩
  | add_user w s h ih =>
    obtain ⟨h1, h2, h3, h4, h5⟩ := ih
    exact ⟨h1, h2, h3, h4, h5⟩
  | upload_step u id hid img s h ih => exact Inv_upload u id hid img ih
  | decide_step u id a s h ih => exact Inv_pending_action u id a ih

/-! ## Properties of the active-thumbnail resolver -/

theorem pickLatest_eq_none {l : List (Upload × User)} :
    Database.pickLatest l = none ↔ l = [] := by
  cases l with
  | nil => simp [Database.pickLatest]
  | cons y ys =>
    constructor
    · intro h
      unfold Database.pickLatest at h
      cases hys : Database.pickLatest ys with
      | none =>
        simp only [hys] at h
        exact Option.noConfusion h
      | some z =>
        simp only [hys] at h
        split at h <;> exact Option.noConfusion h
    · intro h
      exact List.noConfusion h

theorem pickLatest_mem {l : List (Upload × User)} {x : Upload × User}
    (h : Database.pickLatest l = some x) : x ∈ l := by
  induction l with
  | nil => exact Option.noConfusion h
  | cons y ys ih =>
    unfold Database.pickLatest at h
    cases hys : Database.pickLatest ys with
    | none =>
      simp only [hys, Option.some.injEq] at h
      subst h
      exact List.mem_cons_self y ys
    | some z =>
      simp only [hys] at h
      split at h <;> rw [Option.some.injEq] at h <;> subst h
      · exact List.mem_cons_of_mem y (ih hys)
      · exact List.mem_cons_self y ys

theorem pickLatest_max {l : List (Upload × User)} {x : Upload × User}
    (h : Database.pickLatest l = some x) :
    ∀ z ∈ l, z.1.upload_time ≤ x.1.upload_time := by
  induction l generalizing x with
  | nil => exact Option.noConfusion h
  | cons y ys ih =>
    intro z hz
    unfold Database.pickLatest at h
    cases hys : Database.pickLatest ys with
    | none =>
      have hnil : ys = [] := pickLatest_eq_none.mp hys
      subst hnil
      simp only [hys, Option.some.injEq] at h
      subst h
      rcases List.mem_cons.mp hz with hz | hz
      · subst hz
        exact le_refl _
      · exact absurd hz (List.not_mem_nil z)
    | some w =>
      simp only [hys] at h
      by_cases hlt : y.1.upload_time < w.1.upload_time
      · rw [if_pos hlt, Option.some.injEq] at h
        subst h
        rcases List.mem_cons.mp hz with hz | hz
        · subst hz
          exact le_of_lt hlt
        · exact ih hys z hz
      · rw [if_neg hlt, Option.some.injEq] at h
        subst h
        rcases List.mem_cons.mp hz with hz | hz
        · subst hz
          exact le_refl _
        · have h1 := ih hys z hz
          have h2 : w.1.upload_time ≤ y.1.upload_time := Nat.le_of_not_lt hlt
          omega

theorem get_user_by_id_spec {uid : Int} {s : St} {w : User}
    (h : Database.get_user_by_id uid s = some w) :
    w ∈ s.users ∧ w.id = uid := by
  unfold Database.get_user_by_id at h
  refine ⟨List.mem_of_find?_eq_some h, ?_⟩
  have := List.find?_some h
  simpa using this

theorem get_user_by_id_isSome {uid : Int} {s : St}
    (h : ∃ w ∈ s.users, w.id = uid) :
    ∃ w, Database.get_user_by_id uid s = some w := by
  unfold Database.get_user_by_id
  obtain ⟨w, hw, hwid⟩ := h
  have : (s.users.find? (fun w => w.id == uid)).isSome := by
    rw [List.find?_isSome]
    exact ⟨w, hw, by simp [hwid]⟩
  exact Option.isSome_iff_exists.mp this

theorem mem_acceptedJoined {L : Int} {s : St} {x : Upload × User} :
    x ∈ Database.acceptedJoined L s ↔
      (x.1 ∈ s.uploads ∧ x.1.level_id = L ∧ x.1.accepted = true ∧
        Database.get_user_by_id x.1.user_id s = some x.2) := by
  unfold Database.acceptedJoined
  rw [List.mem_filterMap]
  constructor
  · rintro ⟨r, hr, hmap⟩
    rw [List.mem_filter] at hr
    obtain ⟨hrm, hpred⟩ := hr
    simp only [Bool.and_eq_true, beq_iff_eq] at hpred
    rw [Option.map_eq_some'] at hmap
    obtain ⟨w, hw, hxw⟩ := hmap
    subst hxw
    exact ⟨hrm, hpred.1, hpred.2, hw⟩
  · rintro ⟨hmem, hlvl, hacc, hfind⟩
    refine ⟨x.1, ?_, ?_⟩
    · rw [List.mem_filter]
      exact ⟨hmem, by simp [hlvl, hacc]⟩
    · rw [hfind]
      simp

theorem get_upload_info_none_of_no_accepted {L : Int} {s : St}
    (h : ∀ r ∈ s.uploads, r.level_id = L → r.accepted = false) :
    Database.get_upload_info L s = none := by
  unfold Database.get_upload_info
  rw [Option.map_eq_none']
  rw [pickLatest_eq_none]
  unfold Database.acceptedJoined
  have hfil : s.uploads.filter (fun r => r.level_id == L && r.accepted) = [] := by
    rw [List.filter_eq_nil_iff]
    intro r hr hpred
    simp only [Bool.and_eq_true, beq_iff_eq] at hpred
    rw [h r hr hpred.1] at hpred
    exact Bool.noConfusion hpred.2
  rw [hfil]
  rfl

theorem handle_image_404_of_none {id : Nat} {s : St}
    (h : Database.get_upload_info (i64ofU64 id) s = none) :
    Routes.handle_image id s = 404 := by
  unfold Routes.handle_image
  by_cases hex : fsExists (FPath.thumb (id : Int)) s.files = false
  · rw [if_pos hex]
  · rw [if_neg hex, h]

/-- A path-keyed store with no duplicate keys holds at most one entry per
path. -/
theorem count_path_le_one {fs : FS} (h : (fs.map Prod.fst).Nodup) (p : FPath) :
    (fs.filter (fun e => e.1 == p)).length ≤ 1 := by
  induction fs with
  | nil => simp
  | cons e t ih =>
    simp only [List.map_cons, List.nodup_cons] at h
    obtain ⟨hne, ht⟩ := h
    rw [List.filter_cons]
    by_cases he : (e.1 == p) = true
    · rw [if_pos he]
      have hnil : t.filter (fun e => e.1 == p) = [] := by
        rw [List.filter_eq_nil_iff]
        intro a ha hpred
        apply hne
        rw [beq_iff_eq] at he hpred
        rw [List.mem_map]
        exact ⟨a, ha, by rw [hpred, he]⟩
      rw [hnil]
      simp
    · rw [if_neg he]
      exact ih ht

/-- A request body that fails to decode, or decodes to dimensions other than
1920×1080. -/
def badImage : Img → Bool
  | Img.invalid => true
  | Img.valid w h _ => w != 1920 || h != 1080

/-! ## Concrete states used to instantiate and to refute the claims -/

/-- An ordinary submitter (role `user`). -/
def exUser : User := ⟨1, 1001, "uploader", Role.user⟩

/-- A moderator. -/
def exMod : User := ⟨2, 1002, "approver", Role.moderator⟩

/-- A verified submitter. -/
def exVer : User := ⟨3, 1003, "trusted", Role.verified⟩

/-- The same account as `exVer` back when its role was still `user`. -/
def exVerBefore : User := ⟨3, 1003, "trusted", Role.user⟩

/-- State after `exUser` submits a valid 1920×1080 image for level 42. -/
def exPend : St := (Routes.upload exUser 42 (Img.valid 1920 1080 7) St.init).2

/-- The pending row created in `exPend`. -/
def exRow : Upload :=
  { id := 1, user_id := 1, level_id := 42, image_path := FPath.pending 1 42,
    accepted := false, upload_time := 0, accepted_time := none,
    accepted_by := none, reason := none }

/-- State after the moderator accepts that submission. -/
def exAcc : St :=
  (Routes.pending_action exMod 1 ⟨true, none⟩ exPend).2

/-- State after the moderator instead rejects that submission. -/
def exRej : St :=
  (Routes.pending_action exMod 1 ⟨false, some "blurry"⟩ exPend).2

/-- State in which account 3 enqueued a pending submission for level 7
(while still role `user`) and no published artifact exists for level 7. -/
def exConflict : St :=
  (Routes.upload exVerBefore 7 (Img.valid 1920 1080 9) St.init).2

/-- `exAcc` together with the submitter and moderator user rows, so that the
resolver's join finds the submitter. -/
def exResolved : St := { exAcc with users := [exUser, exMod] }

/-- A state holding a pending row whose artifact is absent (an artifact-store
failure scenario for the decision engine). -/
def exOrphan : St :=
  { uploads := [exRow], users := [], files := [], nextUploadId := 2, now := 0 }

theorem exPend_reachable : Reachable exPend :=
  Reachable.upload_step exUser 42 (by norm_num) (Img.valid 1920 1080 7)
    St.init Reachable.init

theorem exAcc_reachable : Reachable exAcc :=
  Reachable.decide_step exMod 1 ⟨true, none⟩ exPend exPend_reachable

theorem exRej_reachable : Reachable exRej :=
  Reachable.decide_step exMod 1 ⟨false, some "blurry"⟩ exPend exPend_reachable

theorem exConflict_reachable : Reachable exConflict :=
  Reachable.upload_step exVerBefore 7 (by norm_num) (Img.valid 1920 1080 9)
    St.init Reachable.init

/-- After a decision returned 200, every row carrying the decided id is
terminal in the successor state. -/
theorem pending_action_200 {u : User} {id : Int}
    {a : Routes.PendingUploadAction} {s : St}
    (h200 : (Routes.pending_action u id a s).1 = 200) :
    ∀ r ∈ (Routes.pending_action u id a s).2.uploads, r.id = id →
      r.isPending = false := by
  by_cases hrole : u.role ≠ Role.moderator ∧ u.role ≠ Role.admin
  · rw [pending_action_forbidden hrole] at h200
    simp at h200
  · cases hfind : Database.get_pending_upload id s with
    | none =>
      rw [pending_action_not_found hrole hfind] at h200
      simp at h200
    | some up =>
      obtain ⟨hmem, hpend, hupid⟩ := get_pending_upload_spec hfind
      have hcore : ∀ t : Nat,
          ∀ r ∈ s.uploads.map
            (Database.decideRow up.id u.id a.reason a.accepted t),
            r.id = id → r.isPending = false := by
        intro t r hr hid
        rcases List.mem_map.mp hr with ⟨r0, hr0, hmap⟩
        subst hmap
        by_cases h0 : r0.id = up.id
        · exact decideRow_not_pending h0
        · rw [decideRow_of_ne h0] at hid ⊢
          exact absurd (hid.trans hupid.symm) h0
      by_cases ha : a.accepted = true
      · cases hc : fsLookup (FPath.pending up.user_id up.level_id) s.files with
        | none =>
          rw [pending_action_accept_fail hrole hfind ha hc] at h200
          simp at h200
        | some c =>
          rw [pending_action_accept_success hrole hfind ha hc]
          intro r hr hid
          rw [accept_upload_uploads] at hr
          rw [ha] at hcore
          exact hcore _ r hr hid
      · have ha' : a.accepted = false := Bool.eq_false_iff.mpr ha
        cases hc : fsExists (FPath.pending up.user_id up.level_id) s.files with
        | false =>
          rw [pending_action_reject_fail hrole hfind ha' hc] at h200
          simp at h200
        | true =>
          rw [pending_action_reject_success hrole hfind ha' hc]
          intro r hr hid
          rw [accept_upload_uploads] at hr
          rw [ha'] at hcore
          exact hcore _ r hr hid

/-! ## The claims -/

/-- C1, counterexample: the stated biconditional
`accepted == true ⟺ acceptedTime is set` is false on a reachable state —
after a rejection the row has `accepted = false` yet `acceptedTime` set. -/
theorem c1_counterexample :
    ¬ (∀ s : St, Reachable s → ∀ r ∈ s.uploads,
        (r.accepted = true ↔ r.accepted_time.isSome = true)) := by
  intro hclaim
  exact absurd (hclaim exRej exRej_reachable) (by decide)

/-- C1, amended: in every reachable state the forward direction holds —
a row with `accepted = true` always has `acceptedTime` set.  (The converse
fails: rejected rows carry `accepted = false` with `acceptedTime` set, as
`accept_upload` writes `accepted_time = NOW()` for both decisions.) -/
theorem c1_accepted_implies_time {s : St} (h : Reachable s) :
    ∀ r ∈ s.uploads, r.accepted = true → r.accepted_time ≠ none :=
  (reachable_inv h).1

/-- The accepted row of `exAcc`. -/
def exAccRow : Upload :=
  { id := 1, user_id := 1, level_id := 42, image_path := FPath.pending 1 42,
    accepted := true, upload_time := 0, accepted_time := some 0,
    accepted_by := some 2, reason := none }

/-- C1 witness: the amended statement instantiated on a concrete reachable
state and its accepted row. -/
theorem c1_witness : exAccRow.accepted_time.isSome = true := by
  have h := c1_accepted_implies_time exAcc_reachable exAccRow
    (by decide) (by decide)
  cases hh : exAccRow.accepted_time with
  | none => exact absurd hh h
  | some t => rfl

/-- C2, counterexample: deciding an already-terminal upload does not return
`AlreadyDecided`/`Conflict` (409) — on a reachable state holding a terminal
row, the second decision call returns 404. -/
theorem c2_counterexample :
    ¬ (∀ (s : St) (u : User) (id : Int) (a : Routes.PendingUploadAction),
        Reachable s → (u.role = Role.moderator ∨ u.role = Role.admin) →
        (∃ r ∈ s.uploads, r.id = id ∧ r.isPending = false) →
        (Routes.pending_action u id a s).1 = 409) := by
  intro hclaim
  exact absurd
    (hclaim exAcc exMod 1 ⟨true, none⟩ exAcc_reachable (Or.inl rfl) (by decide))
    (by decide)

/-- C2, amended: a decision on an id whose rows are all terminal fails with
`NotFound` (404, because `get_pending_upload` filters to pending rows, making
the handler's 409 branch unreachable) and leaves the state unchanged; in
particular, after a decision returned 200, a second decision on the same id
returns 404 and changes nothing. -/
theorem c2_terminal_not_found :
    (∀ (s : St) (u : User) (id : Int) (a : Routes.PendingUploadAction),
        ¬(u.role ≠ Role.moderator ∧ u.role ≠ Role.admin) →
        (∀ r ∈ s.uploads, r.id = id → r.isPending = false) →
        Routes.pending_action u id a s = (404, s)) ∧
    (∀ (s : St) (u u' : User) (id : Int) (a a' : Routes.PendingUploadAction),
        ¬(u'.role ≠ Role.moderator ∧ u'.role ≠ Role.admin) →
        (Routes.pending_action u id a s).1 = 200 →
        Routes.pending_action u' id a' (Routes.pending_action u id a s).2 =
          (404, (Routes.pending_action u id a s).2)) := by
  constructor
  · intro s u id a hrole hterm
    exact pending_action_not_found hrole (get_pending_upload_none hterm)
  · intro s u u' id a a' hrole' h200
    exact pending_action_not_found hrole'
      (get_pending_upload_none (pending_action_200 h200))

/-- C2 witness: both amended statements on concrete runs — the second accept
of upload 1 yields 404 and leaves the post-acceptance state untouched. -/
theorem c2_witness :
    Routes.pending_action exMod 1 ⟨true, none⟩ exAcc = (404, exAcc) ∧
    Routes.pending_action exMod 1 ⟨false, none⟩
        (Routes.pending_action exMod 1 ⟨true, none⟩ exPend).2 =
      (404, (Routes.pending_action exMod 1 ⟨true, none⟩ exPend).2) :=
  ⟨c2_terminal_not_found.1 exAcc exMod 1 ⟨true, none⟩ (by decide) (by decide),
   c2_terminal_not_found.2 exPend exMod exMod 1 ⟨true, none⟩ ⟨false, none⟩
     (by decide) (by decide)⟩

/-- C3: the decision engine performs the artifact operation before the
record update — if the pending artifact is absent (rename or delete fails),
the call aborts with 500 and the whole state, record included, is unchanged;
conversely the record store is only ever touched when the pending artifact
operation succeeded. -/
theorem c3_artifact_before_record :
    (∀ (s : St) (u : User) (id : Int) (a : Routes.PendingUploadAction)
        (up : Upload),
        ¬(u.role ≠ Role.moderator ∧ u.role ≠ Role.admin) →
        Database.get_pending_upload id s = some up →
        fsLookup (FPath.pending up.user_id up.level_id) s.files = none →
        Routes.pending_action u id a s = (500, s)) ∧
    (∀ (s : St) (u : User) (id : Int) (a : Routes.PendingUploadAction),
        (Routes.pending_action u id a s).2.uploads ≠ s.uploads →
        ∃ up, Database.get_pending_upload id s = some up ∧
          fsLookup (FPath.pending up.user_id up.level_id) s.files ≠ none) := by
  constructor
  · intro s u id a up hrole hfind hmiss
    by_cases ha : a.accepted = true
    · exact pending_action_accept_fail hrole hfind ha hmiss
    · have ha' : a.accepted = false := Bool.eq_false_iff.mpr ha
      have hex : fsExists (FPath.pending up.user_id up.level_id) s.files
          = false := by
        unfold fsExists
        rw [hmiss]
        rfl
      exact pending_action_reject_fail hrole hfind ha' hex
  · intro s u id a hch
    by_cases hrole : u.role ≠ Role.moderator ∧ u.role ≠ Role.admin
    · rw [pending_action_forbidden hrole] at hch
      exact absurd rfl hch
    · cases hfind : Database.get_pending_upload id s with
      | none =>
        rw [pending_action_not_found hrole hfind] at hch
        exact absurd rfl hch
      | some up =>
        refine ⟨up, rfl, ?_⟩
        cases hc : fsLookup (FPath.pending up.user_id up.level_id) s.files with
        | some c =>
          intro hc'
          exact Option.noConfusion hc'
        | none =>
          by_cases ha : a.accepted = true
          · rw [pending_action_accept_fail hrole hfind ha hc] at hch
            exact absurd rfl hch
          · have ha' : a.accepted = false := Bool.eq_false_iff.mpr ha
            have hex : fsExists (FPath.pending up.user_id up.level_id) s.files
                = false := by
              unfold fsExists
              rw [hc]
              rfl
            rw [pending_action_reject_fail hrole hfind ha' hex] at hch
            exact absurd rfl hch

/-- C3 witness: on a state holding a pending row whose artifact is missing,
the accept decision aborts with 500 and the state is unchanged. -/
theorem c3_witness :
    Routes.pending_action exMod 1 ⟨true, none⟩ exOrphan = (500, exOrphan) :=
  c3_artifact_before_record.1 exOrphan exMod 1 ⟨true, none⟩ exRow
    (by decide) (by decide) (by decide)

/-- C4: every publishing operation targets the single canonical path keyed
only by the level id.  (a) A direct publish (`force_save`, as called by the
privileged and verified fast paths) installs the fresh content at
`thumbnails/{id}.webp` — overwriting whatever was there — and changes no
other path.  (b) An accepting decision moves the pending artifact's content
to `thumbnails/{levelId}.webp`, overwriting any previous occupant, and
changes no path other than the canonical path and the vacated pending path.
(c) In every reachable state the artifact store holds at most one entry
addressable as a given level's thumbnail. -/
theorem c4_canonical_path :
    (∀ (u : User) (id : Nat) (c : Nat) (s : St),
        fsLookup (FPath.thumb (id : Int)) (Routes.force_save id c u s).files
            = some c ∧
        ∀ p : FPath, p ≠ FPath.thumb (id : Int) →
          fsLookup p (Routes.force_save id c u s).files = fsLookup p s.files) ∧
    (∀ (s : St) (u : User) (id : Int) (a : Routes.PendingUploadAction)
        (up : Upload) (c : Nat),
        ¬(u.role ≠ Role.moderator ∧ u.role ≠ Role.admin) →
        Database.get_pending_upload id s = some up →
        a.accepted = true →
        fsLookup (FPath.pending up.user_id up.level_id) s.files = some c →
        fsLookup (FPath.thumb up.level_id)
            (Routes.pending_action u id a s).2.files = some c ∧
        ∀ p : FPath, p ≠ FPath.thumb up.level_id →
          p ≠ FPath.pending up.user_id up.level_id →
          fsLookup p (Routes.pending_action u id a s).2.files
            = fsLookup p s.files) ∧
    (∀ s : St, Reachable s → ∀ l : Int,
        (s.files.filter (fun e => e.1 == FPath.thumb l)).length ≤ 1) := by
  refine ⟨?_, ?_, ?_⟩
  · intro u id c s
    rw [force_save_files]
    constructor
    · rw [fsLookup_fsWrite, if_pos rfl]
    · intro p hp
      rw [fsLookup_fsWrite, if_neg hp]
  · intro s u id a up c hrole hfind ha hc
    rw [pending_action_accept_success hrole hfind ha hc]
    constructor
    · show fsLookup (FPath.thumb up.level_id)
        (fsWrite (FPath.thumb up.level_id) c
          (fsErase (FPath.pending up.user_id up.level_id) s.files)) = some c
      rw [fsLookup_fsWrite, if_pos rfl]
    · intro p hpt hpo
      show fsLookup p
        (fsWrite (FPath.thumb up.level_id) c
          (fsErase (FPath.pending up.user_id up.level_id) s.files))
          = fsLookup p s.files
      rw [fsLookup_fsWrite, if_neg hpt, fsLookup_fsErase, if_neg hpo]
  · intro s hs l
    exact count_path_le_one (reachable_inv hs).2.2.2.2 (FPath.thumb l)

/-- C4 witness: accepting upload 1 installs the submitted content at the
canonical path of level 42, and the post-acceptance store holds a single
entry for that path. -/
theorem c4_witness :
    fsLookup (FPath.thumb 42)
        (Routes.pending_action exMod 1 ⟨true, none⟩ exPend).2.files = some 7 ∧
    (exAcc.files.filter (fun e => e.1 == FPath.thumb 42)).length ≤ 1 :=
  ⟨(c4_canonical_path.2.1 exPend exMod 1 ⟨true, none⟩ exRow 7
      (by decide) (by decide) (by decide) (by decide)).1,
   c4_canonical_path.2.2 exAcc exAcc_reachable 42⟩

/-- C5, counterexample: a verified submitter with a valid image and no
published artifact for the level is not always published — on a reachable
state where the same account already has a pending submission for the level,
the call returns 409 instead. -/
theorem c5_counterexample :
    ¬ (∀ (u : User) (id : Nat) (c : Nat) (s : St), Reachable s →
        u.role = Role.verified →
        fsExists (FPath.thumb (id : Int)) s.files = false →
        (Routes.upload u id (Img.valid 1920 1080 c) s).1 = 200) := by
  intro hclaim
  exact absurd (hclaim exVer 7 5 exConflict exConflict_reachable rfl (by decide))
    (by decide)

/-- C5, amended: for a verified submitter with a valid 1920×1080 image and
no pending artifact of their own for the level: if no published artifact
exists for the level the submission is published immediately (status 200,
fresh content installed at the canonical path); otherwise it is enqueued as
pending (status 202) and the published artifact is not overwritten.  (If the
submitter already has a pending artifact for the level, the call instead
fails with 409, which the original claim did not account for.) -/
theorem c5_verified_policy :
    ∀ (u : User) (id : Nat) (c : Nat) (s : St),
      u.role = Role.verified →
      fsExists (FPath.pending u.id (id : Int)) s.files = false →
      ((fsExists (FPath.thumb (id : Int)) s.files = false →
          Routes.upload u id (Img.valid 1920 1080 c) s =
            (200, Routes.force_save id c u s) ∧
          fsLookup (FPath.thumb (id : Int))
              (Routes.upload u id (Img.valid 1920 1080 c) s).2.files
            = some c) ∧
       (fsExists (FPath.thumb (id : Int)) s.files = true →
          Routes.upload u id (Img.valid 1920 1080 c) s =
            (202, Routes.add_to_pending id c u s) ∧
          fsLookup (FPath.thumb (id : Int))
              (Routes.upload u id (Img.valid 1920 1080 c) s).2.files
            = fsLookup (FPath.thumb (id : Int)) s.files)) := by
  intro u id c s hrole hnofile
  constructor
  · intro hth
    have heq := @upload_verified_publish u id c s hrole hnofile hth
    refine ⟨heq, ?_⟩
    rw [heq]
    show fsLookup (FPath.thumb (id : Int)) (Routes.force_save id c u s).files
        = some c
    rw [force_save_files, fsLookup_fsWrite, if_pos rfl]
  · intro hth
    have heq := @upload_verified_pending u id c s hrole hnofile hth
    refine ⟨heq, ?_⟩
    rw [heq]
    show fsLookup (FPath.thumb (id : Int))
        (Routes.add_to_pending id c u s).files
        = fsLookup (FPath.thumb (id : Int)) s.files
    rw [add_to_pending_files, fsLookup_fsWrite,
      if_neg (fun h => FPath.noConfusion h)]

/-- C5 witness: the amended statement on a fresh store — the verified
submitter's image for level 7 is published immediately. -/
theorem c5_witness :
    Routes.upload exVer 7 (Img.valid 1920 1080 5) St.init =
      (200, Routes.force_save 7 5 exVer St.init) ∧
    fsLookup (FPath.thumb 7)
        (Routes.upload exVer 7 (Img.valid 1920 1080 5) St.init).2.files
      = some 5 :=
  (c5_verified_policy exVer 7 5 St.init rfl (by decide)).1 (by decide)

/-- C6: a non-privileged submitter with an existing pending artifact for the
`(submitter, level)` pair receives 409 with the state unchanged (no record
inserted, no bytes written), and consequently every reachable state holds at
most one pending upload row per `(userId, levelId)` pair. -/
theorem c6_duplicate_pending :
    (∀ (u : User) (id : Nat) (img : Img) (s : St),
        (u.role = Role.user ∨ u.role = Role.verified) →
        fsExists (FPath.pending u.id (id : Int)) s.files = true →
        Routes.upload u id img s = (409, s)) ∧
    (∀ s : St, Reachable s → ∀ uid lid : Int,
        (s.uploads.filter (fun r =>
          r.isPending && r.user_id == uid && r.level_id == lid)).length ≤ 1) := by
  constructor
  · intro u id img s hrole hex
    exact upload_conflict hrole hex
  · intro s hs uid lid
    exact (reachable_inv hs).2.2.2.1 uid lid

/-- C6 witness: a second submission by the same account for level 7 is
rejected with 409 and leaves the state untouched, and the reachable state
`exPend` holds at most one pending row for `(1, 42)`. -/
theorem c6_witness :
    Routes.upload exVer 7 (Img.valid 1920 1080 5) exConflict
        = (409, exConflict) ∧
    (exPend.uploads.filter (fun r =>
        r.isPending && r.user_id == 1 && r.level_id == 42)).length ≤ 1 :=
  ⟨c6_duplicate_pending.1 exVer 7 (Img.valid 1920 1080 5) exConflict
      (Or.inr rfl) (by decide),
   c6_duplicate_pending.2 exPend exPend_reachable 1 42⟩

/-- C7, counterexample: a bad image is not always answered with 400 — a
non-privileged submitter who already has a pending artifact for the level
receives 409 before the image is ever decoded. -/
theorem c7_counterexample :
    ¬ (∀ (u : User) (id : Nat) (img : Img) (s : St), Reachable s →
        badImage img = true → (Routes.upload u id img s).1 = 400) := by
  intro hclaim
  exact absurd
    (hclaim exVer 7 Img.invalid exConflict exConflict_reachable (by decide))
    (by decide)

/-- C7, amended: a submission whose image fails to decode or is not
1920×1080 never changes the state (no record inserted, no bytes written),
and is answered with 400 — except that for a `user`/`verified` submitter
with an existing pending artifact for the pair, the duplicate-pending check
fires first and answers 409.  For privileged submitters, or whenever no such
pending artifact exists, the answer is 400 as claimed. -/
theorem c7_invalid_image :
    ∀ (u : User) (id : Nat) (img : Img) (s : St),
      badImage img = true →
      (Routes.upload u id img s).2 = s ∧
      ((u.role = Role.admin ∨ u.role = Role.moderator ∨
          fsExists (FPath.pending u.id (id : Int)) s.files = false) →
        (Routes.upload u id img s).1 = 400) := by
  intro u id img s hbad
  by_cases hcond : (u.role = Role.user ∨ u.role = Role.verified) ∧
      fsExists (FPath.pending u.id (id : Int)) s.files = true
  · rw [upload_conflict hcond.1 hcond.2]
    refine ⟨rfl, ?_⟩
    intro hor
    rcases hor with h | h | h
    · rcases hcond.1 with h' | h' <;> rw [h] at h' <;> exact Role.noConfusion h'
    · rcases hcond.1 with h' | h' <;> rw [h] at h' <;> exact Role.noConfusion h'
    · rw [hcond.2] at h
      exact Bool.noConfusion h
  · cases img with
    | invalid =>
      rw [upload_invalid hcond]
      exact ⟨rfl, fun _ => rfl⟩
    | valid w h c =>
      have hdim : w ≠ 1920 ∨ h ≠ 1080 := by
        unfold badImage at hbad
        simpa using hbad
      rw [upload_bad_dims hcond hdim]
      exact ⟨rfl, fun _ => rfl⟩

/-- C7 witness: an undecodable body submitted by an ordinary user on the
empty store — state unchanged and answered with 400. -/
theorem c7_witness :
    (Routes.upload exUser 9 Img.invalid St.init).1 = 400 ∧
    (Routes.upload exUser 9 Img.invalid St.init).2 = St.init :=
  ⟨(c7_invalid_image exUser 9 Img.invalid St.init (by decide)).2
      (Or.inr (Or.inr (by decide))),
   (c7_invalid_image exUser 9 Img.invalid St.init (by decide)).1⟩

/-- C8 (code bug): the guard
`(role != Moderator && role != Admin) || (filter == ByUser(caller.id))`
forbids every caller — moderators included — from viewing the pending queue
filtered by their own user id, contradicting the claim (and the handler's
own error message) that a user may view their own queue; the unfiltered and
by-level views are restricted to moderators/admins as claimed. -/
theorem c8_pending_views_access :
    Routes.get_pending_uploads exUser (Routes.PendingFilter.byUser exUser.id)
        exPend = Except.error 403 ∧
    Routes.get_pending_uploads exMod (Routes.PendingFilter.byUser exMod.id)
        exPend = Except.error 403 ∧
    Routes.get_pending_uploads exUser Routes.PendingFilter.all exPend
        = Except.error 403 ∧
    Routes.get_pending_uploads exUser (Routes.PendingFilter.byLevel 42) exPend
        = Except.error 403 ∧
    Routes.get_pending_uploads exMod Routes.PendingFilter.all exPend
        = Except.ok [exRow] ∧
    Routes.get_pending_uploads exMod (Routes.PendingFilter.byLevel 42) exPend
        = Except.ok [exRow] :=
  ⟨rfl, rfl, rfl, rfl, rfl, rfl⟩

/-- C9: on any store whose upload rows all join to a user row, the resolver
`get_upload_info` returns `none` exactly when no accepted upload exists for
the level; when it returns a row, that row is an accepted upload of the
level of maximal `upload_time`, projected to its submitter's account id and
username; and `handle_image` renders a `none` resolution as 404 (not a
server error). -/
theorem c9_resolver :
    ∀ (s : St) (L : Int),
      (∀ r ∈ s.uploads, ∃ w ∈ s.users, w.id = r.user_id) →
      ((Database.get_upload_info L s = none ↔
          ∀ r ∈ s.uploads, r.level_id = L → r.accepted = false) ∧
       (∀ info : UploadInfo, Database.get_upload_info L s = some info →
          ∃ r ∈ s.uploads, ∃ w ∈ s.users,
            r.accepted = true ∧ r.level_id = L ∧ w.id = r.user_id ∧
            info.account_id = w.account_id ∧ info.username = w.username ∧
            ∀ r' ∈ s.uploads, r'.accepted = true → r'.level_id = L →
              r'.upload_time ≤ r.upload_time) ∧
       (∀ id2 : Nat, Database.get_upload_info (i64ofU64 id2) s = none →
          Routes.handle_image id2 s = 404)) := by
  intro s L hfk
  refine ⟨⟨?_, ?_⟩, ?_, ?_⟩
  · intro hnone r hr hlid
    cases hh : r.accepted with
    | false => rfl
    | true =>
      exfalso
      obtain ⟨w, hw⟩ := get_user_by_id_isSome (hfk r hr)
      have hmemJ : (r, w) ∈ Database.acceptedJoined L s :=
        mem_acceptedJoined.mpr ⟨hr, hlid, hh, hw⟩
      have hnil : Database.acceptedJoined L s = [] := by
        apply pickLatest_eq_none.mp
        unfold Database.get_upload_info at hnone
        exact Option.map_eq_none'.mp hnone
      rw [hnil] at hmemJ
      exact List.not_mem_nil _ hmemJ
  · intro hno
    exact get_upload_info_none_of_no_accepted hno
  · intro info hsome
    unfold Database.get_upload_info at hsome
    rw [Option.map_eq_some'] at hsome
    obtain ⟨x, hx, hinfo⟩ := hsome
    obtain ⟨hmem, hlvl, hacc, hfind⟩ := mem_acceptedJoined.mp (pickLatest_mem hx)
    obtain ⟨hwmem, hwid⟩ := get_user_by_id_spec hfind
    refine ⟨x.1, hmem, x.2, hwmem, hacc, hlvl, hwid, ?_, ?_, ?_⟩
    · rw [← hinfo]
    · rw [← hinfo]
    · intro r' hr' hacc' hlvl'
      obtain ⟨w', hw'⟩ := get_user_by_id_isSome (hfk r' hr')
      have hmemJ : (r', w') ∈ Database.acceptedJoined L s :=
        mem_acceptedJoined.mpr ⟨hr', hlvl', hacc', hw'⟩
      exact pickLatest_max hx (r', w') hmemJ
  · intro id2 hnone
    exact handle_image_404_of_none hnone

/-- C9 witness: on the post-acceptance store with its user rows, level 7 has
no accepted upload, and the image route answers 404 for it. -/
theorem c9_witness : Routes.handle_image 7 exResolved = 404 :=
  (c9_resolver exResolved (i64ofU64 7) (by decide)).2.2 7 (by decide)

/-- An administrator. -/
def exAdmin : User := ⟨4, 1004, "root", Role.admin⟩

/-- C10: every fast-path (directly published) submission — the
admin/moderator path and the verified first-thumbnail path — inserts a
self-accepted row: `accepted = true`, `acceptedTime` set to the insertion
time, and `acceptedBy` equal to the submitter's own user id. -/
theorem c10_fast_path_self_accepted :
    (∀ (u : User) (id : Nat) (c : Nat) (s : St),
        (u.role = Role.admin ∨ u.role = Role.moderator) →
        (Routes.upload u id (Img.valid 1920 1080 c) s).1 = 201 ∧
        (Routes.upload u id (Img.valid 1920 1080 c) s).2.uploads =
          s.uploads ++
            [{ id := s.nextUploadId, user_id := u.id,
               level_id := i64ofU64 id, image_path := FPath.thumb (id : Int),
               accepted := true, upload_time := s.now,
               accepted_time := some s.now, accepted_by := some u.id,
               reason := none }]) ∧
    (∀ (u : User) (id : Nat) (c : Nat) (s : St),
        u.role = Role.verified →
        fsExists (FPath.pending u.id (id : Int)) s.files = false →
        Routes.is_image_uploaded id s = false →
        (Routes.upload u id (Img.valid 1920 1080 c) s).1 = 200 ∧
        (Routes.upload u id (Img.valid 1920 1080 c) s).2.uploads =
          s.uploads ++
            [{ id := s.nextUploadId, user_id := u.id,
               level_id := i64ofU64 id, image_path := FPath.thumb (id : Int),
               accepted := true, upload_time := s.now,
               accepted_time := some s.now, accepted_by := some u.id,
               reason := none }]) := by
  constructor
  · intro u id c s hrole
    rw [upload_privileged hrole]
    exact ⟨rfl, by rw [force_save_uploads]; rfl⟩
  · intro u id c s hrole hnofile hth
    rw [@upload_verified_publish u id c s hrole hnofile hth]
    exact ⟨rfl, by rw [force_save_uploads]; rfl⟩

/-- C10 witness: an admin upload on the empty store inserts one row accepted
by the admin themself. -/
theorem c10_witness :
    (Routes.upload exAdmin 42 (Img.valid 1920 1080 7) St.init).1 = 201 ∧
    (Routes.upload exAdmin 42 (Img.valid 1920 1080 7) St.init).2.uploads =
      [{ id := 1, user_id := 4, level_id := 42,
         image_path := FPath.thumb 42, accepted := true, upload_time := 0,
         accepted_time := some 0, accepted_by := some 4, reason := none }] :=
  c10_fast_path_self_accepted.1 exAdmin 42 7 St.init (Or.inl rfl)

end ThumbServer
